import Mathlib

/-!
Verification of the tinyhttp HTTP/1.1 client (src/main.go) against its
natural-language specification.

The byte stream delivered by the TCP connection is modelled as a
`List Nat` (each element one byte).  Reading from the connection consumes a
prefix of the list; the end of the list is end-of-stream, so an operation
that needs more bytes than remain fails exactly where the corresponding Go
call (`bufio.Reader.ReadString`, `io.ReadFull`, `io.CopyN`) returns a
non-nil error.  Fallible operations return `Option`; a Go `panic` is
modelled as an explicit outcome constructor.  Strings are modelled as their
byte lists (all constants involved are ASCII).
-/

namespace TinyHttp

/-- Bytes of an ASCII string literal. -/
def strBytes (s : String) : List Nat := s.toList.map Char.toNat

/-- Model of `bufio.Reader.ReadString('\n')` on the remaining stream:
returns the bytes up to and including the first `'\n'` (byte 10) and the
rest of the stream, or `none` when the stream ends before a `'\n'` is seen
(Go returns the partial data together with a non-nil error; every caller in
main.go treats that error as failure and discards the data, so `none`
faithfully represents this case). -/
def readStringNL : List Nat → Option (List Nat × List Nat)
  | [] => none
  | b :: rest =>
    if b = 10 then some ([b], rest)
    else
      match readStringNL rest with
      | none => none
      | some (l, r) => some (b :: l, r)

/-- Model of `strings.TrimRight(s, "\r\n")`: removes all trailing bytes
that are 13 or 10. -/
def trimRightCRLF (s : List Nat) : List Nat :=
  (s.reverse.dropWhile (fun b => b = 13 || b = 10)).reverse

/-- Model of `readLine` in main.go: `ReadString('\n')` followed by
`strings.TrimRight(line, "\r\n")`. -/
def readLine (s : List Nat) : Option (List Nat × List Nat) :=
  match readStringNL s with
  | none => none
  | some (l, r) => some (trimRightCRLF l, r)

/-- Whitespace bytes per `unicode.IsSpace` restricted to single-byte runes:
tab, newline, vertical tab, form feed, carriage return, space.  (All inputs
appearing in the development are ASCII, where this coincides with Go's
`strings.TrimSpace`.) -/
def isSpaceByte (b : Nat) : Bool :=
  b = 9 || b = 10 || b = 11 || b = 12 || b = 13 || b = 32

/-- Model of `trimSpace` in main.go (`strings.TrimSpace`). -/
def trimSpace (s : List Nat) : List Nat :=
  ((s.dropWhile isSpaceByte).reverse.dropWhile isSpaceByte).reverse

/-- Value of one hexadecimal digit byte, as accepted by
`strconv.ParseInt(_, 16, 64)`: `0`-`9`, `a`-`f`, `A`-`F`. -/
def hexDigitVal (b : Nat) : Option Nat :=
  if 48 ≤ b ∧ b ≤ 57 then some (b - 48)
  else if 97 ≤ b ∧ b ≤ 102 then some (b - 87)
  else if 65 ≤ b ∧ b ≤ 70 then some (b - 55)
  else none

/-- Value of a non-empty all-hex-digit byte string; `none` on the empty
string or on any non-hex byte (as `strconv.ParseUint` with base 16). -/
def hexVal (s : List Nat) : Option Nat :=
  match s with
  | [] => none
  | _ =>
    s.foldl
      (fun acc b =>
        match acc, hexDigitVal b with
        | some a, some d => some (a * 16 + d)
        | _, _ => none)
      (some 0)

/-- Model of `parseIntHex` in main.go, i.e. `strconv.ParseInt(s, 16, 64)`:
an optional leading sign (`+` is byte 43, `-` is byte 45) followed by a
non-empty run of hex digits; the value must fit in a signed 64-bit integer
(`v < 2^63` for non-negative, `v ≤ 2^63` for negative), otherwise the Go
call reports a range error.  `none` models any non-nil error. -/
def parseIntHex (s : List Nat) : Option Int :=
  match s with
  | [] => none
  | b :: rest =>
    if b = 43 then
      match hexVal rest with
      | none => none
      | some v => if 2 ^ 63 ≤ v then none else some (v : Int)
    else if b = 45 then
      match hexVal rest with
      | none => none
      | some v => if 2 ^ 63 < v then none else some (-(v : Int))
    else
      match hexVal s with
      | none => none
      | some v => if 2 ^ 63 ≤ v then none else some (v : Int)

/-- Outcome of `readChunkedResponse` together with the bytes written to the
output sink before the outcome was reached: normal return `nil` (`ok`),
return of a non-nil error (`err`), or a runtime panic (`panicked`, raised
by `make([]byte, size)` when the parsed size is negative). -/
inductive CRes where
  | ok (out : List Nat)
  | err (out : List Nat)
  | panicked (out : List Nat)
deriving DecidableEq, Repr

/-- Prepend bytes already written to the sink to an outcome. -/
def CRes.prepend (c : List Nat) : CRes → CRes
  | CRes.ok o => CRes.ok (c ++ o)
  | CRes.err o => CRes.err (c ++ o)
  | CRes.panicked o => CRes.panicked (c ++ o)

theorem readStringNL_rest_length {s line rest : List Nat}
    (h : readStringNL s = some (line, rest)) : rest.length < s.length := by
  induction s generalizing line rest with
  | nil => simp [readStringNL] at h
  | cons b bs ih =>
    simp only [readStringNL] at h
    by_cases hb : b = 10
    · simp [hb] at h
      simp [h.2.symm]
    · simp only [hb, if_false] at h
      cases hnl : readStringNL bs with
      | none => simp [hnl] at h
      | some p =>
        cases p with
        | mk l r =>
          simp [hnl] at h
          have := ih hnl
          simp [← h.2]
          omega

theorem readLine_rest_length {s line rest : List Nat}
    (h : readLine s = some (line, rest)) : rest.length < s.length := by
  unfold readLine at h
  cases hnl : readStringNL s with
  | none => simp [hnl] at h
  | some p =>
    cases p with
    | mk l r =>
      simp only [hnl, Option.some.injEq, Prod.mk.injEq] at h
      rw [← h.2]
      exact readStringNL_rest_length hnl

/-- Model of `readChunkedResponse` in main.go over a byte stream: a loop
that reads a size line, trims it, stops with success on an empty trimmed
line, parses it as hex (`parseIntHex`), stops with success on size zero,
panics on a negative size (`make([]byte, size)` with a negative length),
otherwise reads exactly `size` payload bytes (`readBytes`, i.e.
`io.ReadFull`, an error if fewer remain), writes them to the sink, discards
exactly two trailer bytes (`discardBytes`, i.e. `io.CopyN`, an error if
fewer than two remain), and loops.  Allocation of the payload buffer is
idealized (no allocation-size limit). -/
def readChunkedResponse (s : List Nat) : CRes :=
  match h : readLine s with
  | none => CRes.err []
  | some (line, rest) =>
    let sizeLine := trimSpace line
    if sizeLine = [] then CRes.ok []
    else
      match parseIntHex sizeLine with
      | none => CRes.err []
      | some size =>
        if size = 0 then CRes.ok []
        else if size < 0 then CRes.panicked []
        else
          let n := size.toNat
          if n ≤ rest.length then
            if 2 ≤ rest.length - n then
              CRes.prepend (rest.take n) (readChunkedResponse ((rest.drop n).drop 2))
            else CRes.err (rest.take n)
          else CRes.err []
termination_by s.length
decreasing_by
  simp only [List.length_drop]
  have := readLine_rest_length h
  omega

/-- The exact byte string whose presence as a line prefix switches the
response to chunked mode (`strings.HasPrefix(line, "Transfer-Encoding:
chunked")` in `readHeaders`); the comparison is byte-for-byte, hence
case-sensitive. -/
def hasChunkedHeader (line : List Nat) : Bool :=
  (strBytes "Transfer-Encoding: chunked").isPrefixOf line

/-- Model of `readHeaders` in main.go: reads lines (up to and including
each `'\n'`) from the stream, accumulating them, until the line that is
exactly `"\r\n"` (bytes 13 10); that terminator line is included in the
accumulated text.  A line beginning with `"Transfer-Encoding: chunked"`
sets the chunked flag.  Any read error (stream ends before the terminator
line) yields `none`, discarding the partial header text as the Go code
does.  Returns the header text, the chunked flag, and the unconsumed rest
of the stream. -/
def readHeaders (s : List Nat) : Option (List Nat × Bool × List Nat) :=
  match h : readStringNL s with
  | none => none
  | some (line, rest) =>
    if line = [13, 10] then some (line, false, rest)
    else
      match readHeaders rest with
      | none => none
      | some (hdrs, flag, r) => some (line ++ hdrs, hasChunkedHeader line || flag, r)
termination_by s.length
decreasing_by exact readStringNL_rest_length h

/-- Model of `readNonChunkedResponse` in main.go: repeatedly reads up to
4096 bytes into a buffer and writes them to the sink until end-of-stream;
returns the bytes written to the sink.  (In the byte-list model the only
read error is end-of-stream, i.e. Go's `io.EOF`, which the code treats as
normal termination.) -/
def readNonChunkedResponse (s : List Nat) : List Nat :=
  if h : s = [] then []
  else s.take 4096 ++ readNonChunkedResponse (s.drop 4096)
termination_by s.length
decreasing_by
  simp only [List.length_drop]
  have : 0 < s.length := List.length_pos.mpr h
  omega

/-- Flag bytes of a `fmt` verb: `#`, `0`, `+`, `-`, space. -/
def isFlagByte (b : Nat) : Bool :=
  b = 35 || b = 48 || b = 43 || b = 45 || b = 32

/-- ASCII decimal digit bytes. -/
def isDigitByte (b : Nat) : Bool :=
  decide (48 ≤ b) && decide (b ≤ 57)

/-- After a `%`, `fmt` skips flag characters, width digits and an optional
`.`-precision before reading the verb character; this returns the rest of
the format starting at the verb. -/
def afterPercent (s : List Nat) : List Nat :=
  match (s.dropWhile isFlagByte).dropWhile isDigitByte with
  | 46 :: r => r.dropWhile isDigitByte
  | s1 => s1

theorem length_dropWhile_le (p : Nat → Bool) (l : List Nat) :
    (l.dropWhile p).length ≤ l.length := by
  induction l with
  | nil => simp
  | cons b bs ih =>
    by_cases hb : p b <;> simp [List.dropWhile, hb]
    omega

theorem afterPercent_length_le (s : List Nat) :
    (afterPercent s).length ≤ s.length := by
  unfold afterPercent
  have h1 : ((s.dropWhile isFlagByte).dropWhile isDigitByte).length ≤ s.length :=
    le_trans (length_dropWhile_le _ _) (length_dropWhile_le _ _)
  split
  · next r heq =>
    have h2 := length_dropWhile_le isDigitByte r
    rw [heq] at h1
    simp only [List.length_cons] at h1
    omega
  · exact h1

/-- Model of `fmt.Sprintf(format)` called with NO further arguments, as
the Go code does for each custom header (`fmt.Sprintf(header + "\r\n")`).
Literal bytes are copied; `%%` emits `%`; a `%` at the end of the format
emits `%!(NOVERB)`; any other verb `c` has no corresponding operand and
emits `%!c(MISSING)`.  Flags, width digits and a `.`-precision between the
`%` and the verb are skipped as in `fmt` (explicit argument indexes `[n]`
and `*` widths, which no input in this development contains, are not
modelled). -/
def sprintfNoArgs : List Nat → List Nat
  | [] => []
  | b :: rest =>
    if b = 37 then
      match h : afterPercent rest with
      | [] => strBytes "%!(NOVERB)"
      | v :: r =>
        if v = 37 then 37 :: sprintfNoArgs r
        else strBytes "%!" ++ (v :: (strBytes "(MISSING)" ++ sprintfNoArgs r))
    else b :: sprintfNoArgs rest
termination_by s => s.length
decreasing_by
  all_goals
    first
    | (have h1 : (afterPercent rest).length ≤ rest.length := afterPercent_length_le rest
       rw [h] at h1
       simp only [List.length_cons] at h1 ⊢
       omega)
    | (simp only [List.length_cons]; omega)

/-- Model of `parseURL` in main.go: split the URL on `'/'` (byte 47); the
third segment is the host part (indexing `parts[2]` panics — modelled as
`none` — when fewer than three segments exist); the host part is split on
`':'` (byte 58) into host and optional port (default `"80"`); the path is
`"/"` followed by the remaining segments rejoined with `"/"`. -/
def parseURL (url : List Nat) : Option (List Nat × List Nat × List Nat) :=
  let parts := url.splitOn 47
  match parts[2]? with
  | none => none
  | some hostPart =>
    let hostParts := hostPart.splitOn 58
    let host := hostParts.headD []
    let port := if 1 < hostParts.length then hostParts.getD 1 [] else strBytes "80"
    some (host, port, 47 :: List.intercalate [47] (parts.drop 3))

/-- The caller-supplied flags consumed by `HttpGet` (the `OutputFile`
field of the Go struct only selects the sink in `main` and never reaches
`HttpGet`, so it is omitted). -/
structure HttpFlags where
  ShowHeaders : Bool
  ShowOnlyHeaders : Bool
  CustomHeaders : List (List Nat)
deriving DecidableEq, Repr

/-- Outcome of `HttpGet`: `written` is the byte sequence written to the
connection (the single `conn.Write` of the assembled request), `out` the
bytes written to the output sink.  `ok` models a `nil` return, `err` a
non-nil error return, `panicked` a runtime panic (out-of-range URL index
or a negative chunk size). -/
inductive GRes where
  | ok (written out : List Nat)
  | err (written out : List Nat)
  | panicked (written out : List Nat)
deriving DecidableEq, Repr

/-- Bytes written to the connection. -/
def GRes.written : GRes → List Nat
  | GRes.ok w _ => w
  | GRes.err w _ => w
  | GRes.panicked w _ => w

/-- Bytes written to the output sink. -/
def GRes.out : GRes → List Nat
  | GRes.ok _ o => o
  | GRes.err _ o => o
  | GRes.panicked _ o => o

/-- Whether `HttpGet` returned a non-nil error. -/
def GRes.isErr : GRes → Bool
  | GRes.err _ _ => true
  | _ => false

/-- The request assembled by `HttpGet`: the request line
`"GET <path> HTTP/1.1\r\n"` (the path is a `%s` operand, substituted
verbatim), then `requestHeaders` = the host line `"Host: <host>\r\n"`
(likewise a `%s` operand), each custom header passed through
`fmt.Sprintf(header + "\r\n")` as a format string with no operands, and
finally `"Connection: close\r\n\r\n"`. -/
def buildRequest (path host : List Nat) (customHeaders : List (List Nat)) : List Nat :=
  (strBytes "GET " ++ path ++ strBytes " HTTP/1.1" ++ [13, 10]) ++
  (strBytes "Host: " ++ host ++ [13, 10] ++
   (customHeaders.map (fun h => sprintfNoArgs (h ++ [13, 10]))).flatten ++
   (strBytes "Connection: close" ++ [13, 10] ++ [13, 10]))

/-- Model of `HttpGet` in main.go.  The TCP connection is abstracted by
`dialFails` (whether `net.Dial` returns an error), `writeFails` (whether
the single `conn.Write` of the request fails — the Go code discards this
result, so the parameter is deliberately unused) and `response` (the bytes
the connection delivers back).  Control flow as in the source: parse the
URL (panics on short URLs), dial, write the request in one call, read the
header block (an error there is returned), optionally write the header
block to the sink, return early for headers-only mode, otherwise run the
chunked or identity body framer; the error result of
`readChunkedResponse` is discarded and `nil` is returned. -/
def HttpGet (url : List Nat) (flags : HttpFlags) (dialFails writeFails : Bool)
    (response : List Nat) : GRes :=
  match parseURL url with
  | none => GRes.panicked [] []
  | some (host, _port, path) =>
    if dialFails then GRes.err [] []
    else
      let request := buildRequest path host flags.CustomHeaders
      match readHeaders response with
      | none => GRes.err request []
      | some (hdrs, isChunked, rest) =>
        let shown := if flags.ShowHeaders || flags.ShowOnlyHeaders then hdrs else []
        if flags.ShowOnlyHeaders then GRes.ok request shown
        else if isChunked then
          match readChunkedResponse rest with
          | CRes.ok out => GRes.ok request (shown ++ out)
          | CRes.err out => GRes.ok request (shown ++ out)
          | CRes.panicked out => GRes.panicked request (shown ++ out)
        else GRes.ok request (shown ++ readNonChunkedResponse rest)

/-- The spec-side notion used by the claim about malformed size lines: a
valid representation of an unsigned base-16 integer, i.e. a non-empty
string of hex digits with no sign.  (Stated from the specification text
for comparison with the implementation's `parseIntHex`, which accepts a
leading sign.) -/
def validUnsignedHex (s : List Nat) : Bool :=
  !s.isEmpty && s.all (fun b => (hexDigitVal b).isSome)

/-- A chunked-encoded stream: for each chunk a size line (`sizeLine`
followed by the `'\n'` byte), the payload bytes, and the two-byte trailing
terminator 13 10; then the terminating size line and whatever follows it
(trailer bytes, never consumed by the decoder). -/
def encodeStream (chunks : List (List Nat × List Nat)) (lastLine trailer : List Nat) :
    List Nat :=
  (chunks.map (fun p => p.1 ++ 10 :: (p.2 ++ [13, 10]))).flatten ++ lastLine ++ 10 :: trailer

theorem readStringNL_append (raw rest : List Nat) (h : 10 ∉ raw) :
    readStringNL (raw ++ 10 :: rest) = some (raw ++ [10], rest) := by
  induction raw with
  | nil => simp [readStringNL]
  | cons b bs ih =>
    have hb : b ≠ 10 := by
      intro hb
      exact h (by simp [hb])
    have hbs : 10 ∉ bs := fun hm => h (List.mem_cons_of_mem _ hm)
    simp [readStringNL, hb, ih hbs]

theorem trimRightCRLF_append_nl (raw : List Nat) :
    trimRightCRLF (raw ++ [10]) = trimRightCRLF raw := by
  simp [trimRightCRLF, List.dropWhile]

theorem readLine_append (raw rest : List Nat) (h : 10 ∉ raw) :
    readLine (raw ++ 10 :: rest) = some (trimRightCRLF raw, rest) := by
  simp [readLine, readStringNL_append raw rest h, trimRightCRLF_append_nl]

theorem readChunked_unfold (raw rest : List Nat) (h10 : 10 ∉ raw) :
    readChunkedResponse (raw ++ 10 :: rest) =
      (if trimSpace (trimRightCRLF raw) = [] then CRes.ok []
       else
         match parseIntHex (trimSpace (trimRightCRLF raw)) with
         | none => CRes.err []
         | some size =>
           if size = 0 then CRes.ok []
           else if size < 0 then CRes.panicked []
           else
             if size.toNat ≤ rest.length then
               if 2 ≤ rest.length - size.toNat then
                 CRes.prepend (rest.take size.toNat)
                   (readChunkedResponse ((rest.drop size.toNat).drop 2))
               else CRes.err (rest.take size.toNat)
             else CRes.err []) := by
  conv_lhs => rw [readChunkedResponse]
  split
  · next h =>
    rw [readLine_append raw rest h10] at h
    simp at h
  · next line rest1 h =>
    rw [readLine_append raw rest h10] at h
    simp only [Option.some.injEq, Prod.mk.injEq] at h
    rw [← h.1, ← h.2]

theorem parseIntHex_nil : parseIntHex [] = none := rfl

theorem parseIntHex_arg_ne_nil {t : List Nat} {k : Int} (h : parseIntHex t = some k) :
    t ≠ [] := by
  intro he
  rw [he, parseIntHex_nil] at h
  exact Option.noConfusion h

theorem readChunked_step_empty (raw rest : List Nat) (h10 : 10 ∉ raw)
    (he : trimSpace (trimRightCRLF raw) = []) :
    readChunkedResponse (raw ++ 10 :: rest) = CRes.ok [] := by
  rw [readChunked_unfold raw rest h10, if_pos he]

theorem readChunked_step_parse_none (raw rest : List Nat) (h10 : 10 ∉ raw)
    (hne : trimSpace (trimRightCRLF raw) ≠ [])
    (hp : parseIntHex (trimSpace (trimRightCRLF raw)) = none) :
    readChunkedResponse (raw ++ 10 :: rest) = CRes.err [] := by
  rw [readChunked_unfold raw rest h10, if_neg hne, hp]

theorem readChunked_step_zero (raw rest : List Nat) (h10 : 10 ∉ raw)
    (hp : parseIntHex (trimSpace (trimRightCRLF raw)) = some 0) :
    readChunkedResponse (raw ++ 10 :: rest) = CRes.ok [] := by
  rw [readChunked_unfold raw rest h10, if_neg (parseIntHex_arg_ne_nil hp), hp]
  dsimp only
  rw [if_pos rfl]

theorem readChunked_step_neg (raw rest : List Nat) (h10 : 10 ∉ raw) (k : Int)
    (hp : parseIntHex (trimSpace (trimRightCRLF raw)) = some k) (hk : k < 0) :
    readChunkedResponse (raw ++ 10 :: rest) = CRes.panicked [] := by
  rw [readChunked_unfold raw rest h10, if_neg (parseIntHex_arg_ne_nil hp), hp]
  dsimp only
  rw [if_neg (by omega), if_pos hk]

theorem readChunked_step_data (raw payload : List Nat) (b1 b2 : Nat) (tail : List Nat)
    (h10 : 10 ∉ raw) (k : Int)
    (hp : parseIntHex (trimSpace (trimRightCRLF raw)) = some k) (hk : 0 < k)
    (hlen : payload.length = k.toNat) :
    readChunkedResponse (raw ++ 10 :: (payload ++ b1 :: b2 :: tail)) =
      CRes.prepend payload (readChunkedResponse tail) := by
  rw [readChunked_unfold raw _ h10, if_neg (parseIntHex_arg_ne_nil hp), hp]
  dsimp only
  rw [if_neg (by omega), if_neg (by omega)]
  have hlen2 : (payload ++ b1 :: b2 :: tail).length = k.toNat + 2 + tail.length := by
    simp [← hlen]
    omega
  rw [if_pos (by omega), if_pos (by omega)]
  have ht : (payload ++ b1 :: b2 :: tail).take k.toNat = payload := by
    rw [← hlen]
    exact List.take_left payload _
  have hd : (payload ++ b1 :: b2 :: tail).drop k.toNat = b1 :: b2 :: tail := by
    rw [← hlen]
    exact List.drop_left payload _
  rw [ht, hd]
  rfl

theorem readChunked_step_short_data (raw short : List Nat) (h10 : 10 ∉ raw) (k : Int)
    (hp : parseIntHex (trimSpace (trimRightCRLF raw)) = some k) (hk : 0 < k)
    (hshort : short.length < k.toNat) :
    readChunkedResponse (raw ++ 10 :: short) = CRes.err [] := by
  rw [readChunked_unfold raw short h10, if_neg (parseIntHex_arg_ne_nil hp), hp]
  dsimp only
  rw [if_neg (by omega), if_neg (by omega), if_neg (by omega)]

theorem readChunked_step_short_trailer (raw payload t : List Nat) (h10 : 10 ∉ raw) (k : Int)
    (hp : parseIntHex (trimSpace (trimRightCRLF raw)) = some k) (hk : 0 < k)
    (hlen : payload.length = k.toNat) (ht : t.length < 2) :
    readChunkedResponse (raw ++ 10 :: (payload ++ t)) = CRes.err payload := by
  rw [readChunked_unfold raw _ h10, if_neg (parseIntHex_arg_ne_nil hp), hp]
  dsimp only
  rw [if_neg (by omega), if_neg (by omega)]
  have hlen2 : (payload ++ t).length = k.toNat + t.length := by
    simp [← hlen]
  rw [if_pos (by omega), if_neg (by omega)]
  have htake : (payload ++ t).take k.toNat = payload := by
    rw [← hlen]
    exact List.take_left payload t
  rw [htake]

theorem readNonChunkedResponse_eq_id (s : List Nat) : readNonChunkedResponse s = s := by
  have key : ∀ (n : Nat) (t : List Nat), t.length ≤ n → readNonChunkedResponse t = t := by
    intro n
    induction n with
    | zero =>
      intro t ht
      have : t = [] := List.length_eq_zero.mp (Nat.le_zero.mp ht)
      subst this
      rw [readNonChunkedResponse]
      simp
    | succ m ih =>
      intro t ht
      rw [readNonChunkedResponse]
      by_cases he : t = []
      · simp [he]
      · rw [dif_neg he]
        rw [ih (t.drop 4096) (by simp [List.length_drop]; omega)]
        exact List.take_append_drop 4096 t
  exact key s.length s le_rfl

theorem sprintfNoArgs_id_of_no_percent (s : List Nat) (h : 37 ∉ s) :
    sprintfNoArgs s = s := by
  induction s with
  | nil =>
    rw [sprintfNoArgs]
  | cons b rest ih =>
    have hb : b ≠ 37 := by
      intro hb
      exact h (by simp [hb])
    have hrest : 37 ∉ rest := fun hm => h (List.mem_cons_of_mem _ hm)
    rw [sprintfNoArgs]
    simp [hb, ih hrest]

theorem sprintfNoArgs_cons_ne (b : Nat) (rest : List Nat) (hb : b ≠ 37) :
    sprintfNoArgs (b :: rest) = b :: sprintfNoArgs rest := by
  rw [sprintfNoArgs, if_neg hb]

theorem sprintfNoArgs_append_no_percent (l1 l2 : List Nat) (h : 37 ∉ l1) :
    sprintfNoArgs (l1 ++ l2) = l1 ++ sprintfNoArgs l2 := by
  induction l1 with
  | nil => simp
  | cons b bs ih =>
    have hb : b ≠ 37 := by
      intro hb
      exact h (by simp [hb])
    have hbs : 37 ∉ bs := fun hm => h (List.mem_cons_of_mem _ hm)
    rw [List.cons_append, sprintfNoArgs_cons_ne b (bs ++ l2) hb, ih hbs]
    simp

theorem sprintfNoArgs_missing (rest : List Nat) (v : Nat) (r : List Nat)
    (h : afterPercent rest = v :: r) (hv : v ≠ 37) :
    sprintfNoArgs (37 :: rest) =
      strBytes "%!" ++ (v :: (strBytes "(MISSING)" ++ sprintfNoArgs r)) := by
  rw [sprintfNoArgs]
  split
  · split
    · next h0 =>
      rw [h] at h0
      exact List.noConfusion h0
    · next v2 r2 h0 =>
      rw [h] at h0
      injection h0 with h1 h2
      subst h1
      subst h2
      rw [if_neg hv]
  · next h0 => exact absurd rfl h0

theorem readHeaders_unfold (raw rest : List Nat) (h10 : 10 ∉ raw) :
    readHeaders (raw ++ 10 :: rest) =
      (if raw ++ [10] = [13, 10] then some (raw ++ [10], false, rest)
       else
         match readHeaders rest with
         | none => none
         | some (hdrs, flag, r) =>
           some ((raw ++ [10]) ++ hdrs, hasChunkedHeader (raw ++ [10]) || flag, r)) := by
  conv_lhs => rw [readHeaders]
  split
  · next h =>
    rw [readStringNL_append raw rest h10] at h
    simp at h
  · next line rest1 h =>
    rw [readStringNL_append raw rest h10] at h
    simp only [Option.some.injEq, Prod.mk.injEq] at h
    rw [← h.1, ← h.2]

/-- The byte stream of a response header phase: each header line `raw`
followed by its `'\n'` byte, then the terminator line 13 10, then the rest
of the stream (the body bytes). -/
def encodeHeaders (lines : List (List Nat)) (rest : List Nat) : List Nat :=
  (lines.map (fun raw => raw ++ [10])).flatten ++ 13 :: 10 :: rest

theorem readHeaders_encode (lines : List (List Nat)) (rest : List Nat)
    (h : ∀ raw ∈ lines, 10 ∉ raw ∧ raw ≠ [13]) :
    readHeaders (encodeHeaders lines rest) =
      some ((lines.map (fun raw => raw ++ [10])).flatten ++ [13, 10],
        lines.any (fun raw => hasChunkedHeader (raw ++ [10])), rest) := by
  induction lines with
  | nil =>
    have h13 : (10 : Nat) ∉ [(13 : Nat)] := by decide
    have := readHeaders_unfold [13] rest h13
    simp only [encodeHeaders, List.map_nil, List.flatten_nil, List.nil_append] at *
    rw [show (13 : Nat) :: 10 :: rest = [13] ++ 10 :: rest from rfl, this]
    simp
  | cons raw ls ih =>
    obtain ⟨h10, hne13⟩ := h raw (List.mem_cons_self raw ls)
    have hrest : ∀ r ∈ ls, 10 ∉ r ∧ r ≠ [13] := fun r hr => h r (List.mem_cons_of_mem _ hr)
    have hstream : encodeHeaders (raw :: ls) rest = raw ++ 10 :: encodeHeaders ls rest := by
      simp [encodeHeaders]
    rw [hstream, readHeaders_unfold raw _ h10]
    have hterm : raw ++ [10] ≠ [13, 10] := by
      intro he
      apply hne13
      have h2 : (raw ++ [10]).dropLast = ([13, 10] : List Nat).dropLast := by rw [he]
      simpa using h2
    rw [if_neg hterm, ih hrest]
    simp [List.append_assoc]

/-- C1: for every response body of N chunks, each a valid hex size line
(any line whose trimmed content `parseIntHex` accepts as the payload
length, which must be positive) followed by exactly that many payload
bytes and the two-byte terminator 13 10, ended by a zero-size chunk line,
`readChunkedResponse` writes exactly the concatenation of the N payloads
to the sink, in order, and returns success — independent of N and of the
individual chunk sizes. -/
theorem chunked_decode_concat (chunks : List (List Nat × List Nat))
    (lastLine trailer : List Nat)
    (hc : ∀ p ∈ chunks, 10 ∉ p.1 ∧
      parseIntHex (trimSpace (trimRightCRLF p.1)) = some (p.2.length : Int) ∧ p.2 ≠ [])
    (hl : 10 ∉ lastLine)
    (hz : parseIntHex (trimSpace (trimRightCRLF lastLine)) = some 0) :
    readChunkedResponse (encodeStream chunks lastLine trailer) =
      CRes.ok (chunks.map Prod.snd).flatten := by
  induction chunks with
  | nil =>
    simp only [encodeStream, List.map_nil, List.flatten_nil, List.nil_append]
    exact readChunked_step_zero lastLine trailer hl hz
  | cons p ps ih =>
    obtain ⟨h10, hp, hnil⟩ := hc p (List.mem_cons_self p ps)
    have hps := fun q hq => hc q (List.mem_cons_of_mem p hq)
    have hstream : encodeStream (p :: ps) lastLine trailer =
        p.1 ++ 10 :: (p.2 ++ 13 :: 10 :: encodeStream ps lastLine trailer) := by
      simp [encodeStream]
    have hpos : (0 : Int) < (p.2.length : Int) := by
      exact_mod_cast List.length_pos.mpr hnil
    rw [hstream,
      readChunked_step_data p.1 p.2 13 10 (encodeStream ps lastLine trailer) h10
        (p.2.length : Int) hp hpos (by simp),
      ih hps]
    simp [CRes.prepend]

/-- Witness for C1 at a concrete two-chunk stream (sizes 2 and 1) with a
zero-size terminating line and unread trailer bytes. -/
theorem chunked_decode_concat_witness :
    readChunkedResponse (encodeStream
        [(strBytes "2", strBytes "ab"), (strBytes "1", strBytes "c")]
        (strBytes "0") (strBytes "XY")) =
      CRes.ok (([(strBytes "2", strBytes "ab"), (strBytes "1", strBytes "c")].map
        Prod.snd).flatten) :=
  chunked_decode_concat
    [(strBytes "2", strBytes "ab"), (strBytes "1", strBytes "c")]
    (strBytes "0") (strBytes "XY") (by decide) (by decide) (by decide)

/-- C4: a size line whose trimmed content is empty, or parses to zero,
terminates decoding immediately with success and nothing further written
to the sink, whatever bytes follow. -/
theorem chunked_terminator_ok (raw rest : List Nat) (h10 : 10 ∉ raw)
    (h : trimSpace (trimRightCRLF raw) = [] ∨
      parseIntHex (trimSpace (trimRightCRLF raw)) = some 0) :
    readChunkedResponse (raw ++ 10 :: rest) = CRes.ok [] := by
  cases h with
  | inl he => exact readChunked_step_empty raw rest h10 he
  | inr hz => exact readChunked_step_zero raw rest h10 hz

/-- Witness for C4: an empty size line (just 13 10) followed by junk. -/
theorem chunked_terminator_ok_witness :
    readChunkedResponse ([13] ++ 10 :: strBytes "junk") = CRes.ok [] :=
  chunked_terminator_ok [13] (strBytes "junk") (by decide) (Or.inl (by decide))

/-- C3 (amended): a size line whose trimmed content is non-empty and is
rejected by the signed base-16 parse (`strconv.ParseInt`) makes
`readChunkedResponse` return an error with no further bytes written.
(Lines with a leading sign are accepted by the parse, see the
counterexample.) -/
theorem chunked_bad_sizeline_err (raw rest : List Nat) (h10 : 10 ∉ raw)
    (hne : trimSpace (trimRightCRLF raw) ≠ [])
    (hp : parseIntHex (trimSpace (trimRightCRLF raw)) = none) :
    readChunkedResponse (raw ++ 10 :: rest) = CRes.err [] :=
  readChunked_step_parse_none raw rest h10 hne hp

/-- Witness for the amended C3 at the non-hex size line `"zz"`. -/
theorem chunked_bad_sizeline_err_witness :
    readChunkedResponse (strBytes "zz" ++ 10 :: strBytes "abcd") = CRes.err [] :=
  chunked_bad_sizeline_err (strBytes "zz") (strBytes "abcd") (by decide) (by decide)
    (by decide)

/-- Counterexample to C3 as stated: the size line `"-1"` is non-empty and
is not a valid unsigned base-16 integer, yet `parseIntHex`
(`strconv.ParseInt`, a signed parse) accepts it, so no parse error is
returned; instead `make([]byte, -1)` panics.  `readChunkedResponse` hence
neither returns an error nor writes anything — it panics. -/
theorem chunked_bad_sizeline_cex :
    validUnsignedHex (trimSpace (trimRightCRLF (strBytes "-1"))) = false ∧
    trimSpace (trimRightCRLF (strBytes "-1")) ≠ [] ∧
    parseIntHex (trimSpace (trimRightCRLF (strBytes "-1"))) = some (-1) ∧
    readChunkedResponse (strBytes "-1" ++ 10 :: strBytes "abcd") = CRes.panicked [] ∧
    readChunkedResponse (strBytes "-1" ++ 10 :: strBytes "abcd") ≠ CRes.err [] := by
  have hneg := readChunked_step_neg (strBytes "-1") (strBytes "abcd") (by decide) (-1)
    (by decide) (by decide)
  refine ⟨by decide, by decide, by decide, hneg, ?_⟩
  rw [hneg]
  exact fun hc => CRes.noConfusion hc

/-- C7: once a positive size k has been parsed, the decoder consumes
exactly k payload bytes and writes them to the sink, then discards exactly
the next two bytes whatever their values, and continues decoding at the
byte after them; a stream ending before the k payload bytes yields an
error with nothing written for this chunk, and a stream ending before both
trailer bytes yields an error after the chunk payload was written. -/
theorem chunked_data_trailer_exact (raw payload : List Nat) (b1 b2 : Nat)
    (tail : List Nat) (h10 : 10 ∉ raw) (k : Int)
    (hp : parseIntHex (trimSpace (trimRightCRLF raw)) = some k) (hk : 0 < k)
    (hlen : payload.length = k.toNat) :
    readChunkedResponse (raw ++ 10 :: (payload ++ b1 :: b2 :: tail)) =
      CRes.prepend payload (readChunkedResponse tail) ∧
    (∀ short : List Nat, short.length < k.toNat →
      readChunkedResponse (raw ++ 10 :: short) = CRes.err []) ∧
    (∀ t : List Nat, t.length < 2 →
      readChunkedResponse (raw ++ 10 :: (payload ++ t)) = CRes.err payload) :=
  ⟨readChunked_step_data raw payload b1 b2 tail h10 k hp hk hlen,
   fun short hs => readChunked_step_short_data raw short h10 k hp hk hs,
   fun t ht => readChunked_step_short_trailer raw payload t h10 k hp hk hlen ht⟩

/-- Witness for C7: size line `"3"`, payload `"xyz"`, trailer bytes 0 and
255 (not 13 10 — they are discarded without inspection); a 2-byte stream
is short payload data; a 1-byte trailer is a short trailer. -/
theorem chunked_data_trailer_exact_witness :
    readChunkedResponse (strBytes "3" ++ 10 :: (strBytes "xyz" ++ 0 :: 255 :: [48, 10])) =
      CRes.prepend (strBytes "xyz") (readChunkedResponse [48, 10]) ∧
    readChunkedResponse (strBytes "3" ++ 10 :: strBytes "xy") = CRes.err [] ∧
    readChunkedResponse (strBytes "3" ++ 10 :: (strBytes "xyz" ++ [13])) =
      CRes.err (strBytes "xyz") := by
  have h := chunked_data_trailer_exact (strBytes "3") (strBytes "xyz") 0 255 [48, 10]
    (by decide) 3 (by decide) (by decide) (by decide)
  exact ⟨h.1, h.2.1 (strBytes "xy") (by decide), h.2.2 [13] (by decide)⟩

theorem httpGet_written_eq (url : List Nat) (flags : HttpFlags) (writeFails : Bool)
    (response : List Nat) (host port path : List Nat)
    (hurl : parseURL url = some (host, port, path)) :
    (HttpGet url flags false writeFails response).written =
      buildRequest path host flags.CustomHeaders := by
  simp only [HttpGet, hurl]
  cases hresp : readHeaders response with
  | none => rfl
  | some trip =>
    obtain ⟨hdrs, flag, rest⟩ := trip
    by_cases hso : flags.ShowOnlyHeaders = true
    · simp [hso, GRes.written]
    · have hso2 : flags.ShowOnlyHeaders = false := Bool.not_eq_true _ |>.mp hso
      cases flag with
      | false => simp [hso2, GRes.written]
      | true => cases hcr : readChunkedResponse rest <;> simp [hso2, hcr, GRes.written]

theorem httpGet_not_err_of_headers_ok (url : List Nat) (flags : HttpFlags)
    (writeFails : Bool) (response : List Nat) (host port path hdrs : List Nat)
    (flag : Bool) (rest : List Nat)
    (hurl : parseURL url = some (host, port, path))
    (hresp : readHeaders response = some (hdrs, flag, rest)) :
    (HttpGet url flags false writeFails response).isErr = false := by
  simp only [HttpGet, hurl, hresp]
  by_cases hso : flags.ShowOnlyHeaders = true
  · simp [hso, GRes.isErr]
  · have hso2 : flags.ShowOnlyHeaders = false := Bool.not_eq_true _ |>.mp hso
    cases flag with
    | false => simp [hso2, GRes.isErr]
    | true => cases hcr : readChunkedResponse rest <;> simp [hso2, hcr, GRes.isErr]

/-- C2 (amended): `HttpGet` returns a non-nil error exactly when dialing
fails or reading the header block fails.  The error result of the request
write (`conn.Write`) is discarded, and errors raised while decoding the
body are either discarded (`readChunkedResponse`) or never returned
(`readNonChunkedResponse`), so no body-phase transport failure reaches the
caller. -/
theorem httpGet_error_iff (url : List Nat) (flags : HttpFlags)
    (dialFails writeFails : Bool) (response : List Nat) (host port path : List Nat)
    (hurl : parseURL url = some (host, port, path)) :
    (HttpGet url flags dialFails writeFails response).isErr = true ↔
      (dialFails = true ∨ readHeaders response = none) := by
  cases dialFails with
  | true =>
    simp only [HttpGet, hurl]
    simp [GRes.isErr]
  | false =>
    simp only [Bool.false_eq_true, false_or]
    cases hresp : readHeaders response with
    | none =>
      simp only [HttpGet, hurl, hresp]
      simp [GRes.isErr]
    | some trip =>
      obtain ⟨hdrs, flag, rest⟩ := trip
      have hne := httpGet_not_err_of_headers_ok url flags writeFails response host port
        path hdrs flag rest hurl hresp
      simp [hne]

/-- Witness for the amended C2: with a failing dial the result is an
error. -/
theorem httpGet_error_iff_witness :
    (HttpGet (strBytes "http://x/") ⟨false, false, []⟩ true false []).isErr = true ↔
      (true = true ∨ readHeaders [] = none) :=
  httpGet_error_iff (strBytes "http://x/") ⟨false, false, []⟩ true false []
    (strBytes "x") (strBytes "80") [47] (by decide)

/-- Counterexample to C2 as stated: the connection write fails
(`writeFails = true`) AND a body read fails (the chunked body declares 5
bytes but the stream ends after 2, so `readChunkedResponse` returns an
error), yet `HttpGet` returns nil: the write's error is never examined and
the body decoder's error is discarded at the call site. -/
theorem httpGet_error_cex :
    readChunkedResponse (strBytes "5" ++ 10 :: strBytes "ab") = CRes.err [] ∧
    (HttpGet (strBytes "http://x/") ⟨false, false, []⟩ false true
        (encodeHeaders [strBytes "HTTP/1.1 200 OK\r", strBytes "Transfer-Encoding: chunked\r"]
          (strBytes "5" ++ 10 :: strBytes "ab"))).isErr = false := by
  constructor
  · exact readChunked_step_short_data (strBytes "5") (strBytes "ab") (by decide) 5
      (by decide) (by decide) (by decide)
  · have henc := readHeaders_encode
      [strBytes "HTTP/1.1 200 OK\r", strBytes "Transfer-Encoding: chunked\r"]
      (strBytes "5" ++ 10 :: strBytes "ab") (by decide)
    exact httpGet_not_err_of_headers_ok _ _ _ _ (strBytes "x") (strBytes "80") [47] _ _ _
      (by decide) henc

/-- C5 (amended): provided no custom header contains a `%` byte, the
request written to the connection — in a single write — is exactly the
request line, the host line, each custom header verbatim in order, each
followed by 13 10, then `"Connection: close"` 13 10 and the final blank
line 13 10.  (A `%` in a header is mangled, because the header is passed
to `fmt.Sprintf` as a format string; see the counterexample.) -/
theorem httpGet_request_format (url : List Nat) (flags : HttpFlags)
    (writeFails : Bool) (response : List Nat) (host port path : List Nat)
    (hurl : parseURL url = some (host, port, path))
    (hhdr : ∀ h ∈ flags.CustomHeaders, 37 ∉ h) :
    (HttpGet url flags false writeFails response).written =
      (strBytes "GET " ++ path ++ strBytes " HTTP/1.1" ++ [13, 10]) ++
      (strBytes "Host: " ++ host ++ [13, 10] ++
       (flags.CustomHeaders.map (fun h => h ++ [13, 10])).flatten ++
       (strBytes "Connection: close" ++ [13, 10] ++ [13, 10])) := by
  rw [httpGet_written_eq url flags writeFails response host port path hurl]
  unfold buildRequest
  have hmap : flags.CustomHeaders.map (fun h => sprintfNoArgs (h ++ [13, 10])) =
      flags.CustomHeaders.map (fun h => h ++ [13, 10]) := by
    apply List.map_congr_left
    intro h hm
    apply sprintfNoArgs_id_of_no_percent
    intro hmem
    rcases List.mem_append.mp hmem with h1 | h2
    · exact hhdr h hm h1
    · simp at h2
  rw [hmap]

/-- Witness for the amended C5 with two %-free custom headers. -/
theorem httpGet_request_format_witness :
    (HttpGet (strBytes "http://x/")
        ⟨false, false, [strBytes "Authorization: Basic XXXXX", strBytes "Custom-Auth: SecretToken"]⟩
        false false []).written =
      (strBytes "GET " ++ [47] ++ strBytes " HTTP/1.1" ++ [13, 10]) ++
      (strBytes "Host: " ++ strBytes "x" ++ [13, 10] ++
       ([strBytes "Authorization: Basic XXXXX", strBytes "Custom-Auth: SecretToken"].map
         (fun h => h ++ [13, 10])).flatten ++
       (strBytes "Connection: close" ++ [13, 10] ++ [13, 10])) :=
  httpGet_request_format (strBytes "http://x/")
    ⟨false, false, [strBytes "Authorization: Basic XXXXX", strBytes "Custom-Auth: SecretToken"]⟩
    false [] (strBytes "x") (strBytes "80") [47] (by decide) (by decide)

/-- Counterexample to C5 as stated: the custom header `"X: 100%z"` is not
copied verbatim — `fmt.Sprintf` treats it as a format string and, with no
operands, rewrites the verb `%z` to `%!z(MISSING)`. -/
theorem httpGet_request_format_cex :
    (HttpGet (strBytes "http://x/") ⟨false, false, [strBytes "X: 100%z"]⟩
        false false []).written =
      strBytes "GET / HTTP/1.1\r\nHost: x\r\nX: 100%!z(MISSING)\r\nConnection: close\r\n\r\n" ∧
    (HttpGet (strBytes "http://x/") ⟨false, false, [strBytes "X: 100%z"]⟩
        false false []).written ≠
      strBytes "GET / HTTP/1.1\r\nHost: x\r\nX: 100%z\r\nConnection: close\r\n\r\n" := by
  have hw := httpGet_written_eq (strBytes "http://x/") ⟨false, false, [strBytes "X: 100%z"]⟩
    false [] (strBytes "x") (strBytes "80") [47] (by decide)
  have hs : sprintfNoArgs (strBytes "X: 100%z" ++ [13, 10]) =
      strBytes "X: 100%!z(MISSING)" ++ [13, 10] := by
    have h1 : strBytes "X: 100%z" ++ [13, 10] = strBytes "X: 100" ++ (37 :: [122, 13, 10]) := by
      decide
    rw [h1, sprintfNoArgs_append_no_percent (strBytes "X: 100") _ (by decide),
      sprintfNoArgs_missing [122, 13, 10] 122 [13, 10] (by decide) (by decide),
      sprintfNoArgs_id_of_no_percent [13, 10] (by decide)]
    decide
  constructor
  · rw [hw]
    unfold buildRequest
    simp only [List.map_cons, List.map_nil, hs]
    decide
  · rw [hw]
    unfold buildRequest
    simp only [List.map_cons, List.map_nil, hs]
    decide

/-- C6: when `ShowOnlyHeaders` is set, `HttpGet` writes exactly the header
block to the sink and returns nil without invoking either body framer, so
no byte of `rest` (the stream past the header terminator) is ever written,
whatever body data the connection carries. -/
theorem httpGet_headers_only (url : List Nat) (flags : HttpFlags)
    (writeFails : Bool) (response : List Nat) (host port path hdrs : List Nat)
    (flag : Bool) (rest : List Nat)
    (hurl : parseURL url = some (host, port, path))
    (hso : flags.ShowOnlyHeaders = true)
    (hresp : readHeaders response = some (hdrs, flag, rest)) :
    HttpGet url flags false writeFails response =
      GRes.ok (buildRequest path host flags.CustomHeaders) hdrs := by
  simp only [HttpGet, hurl, hresp]
  simp [hso]

/-- Witness for C6: a one-header response followed by body bytes that
never reach the sink. -/
theorem httpGet_headers_only_witness :
    HttpGet (strBytes "http://x/") ⟨false, true, []⟩ false false
        (encodeHeaders [strBytes "HTTP/1.1 200 OK\r"] (strBytes "SECRET BODY")) =
      GRes.ok (buildRequest [47] (strBytes "x") [])
        (strBytes "HTTP/1.1 200 OK\r\n\r\n") := by
  have hresp : readHeaders
      (encodeHeaders [strBytes "HTTP/1.1 200 OK\r"] (strBytes "SECRET BODY")) =
      some (strBytes "HTTP/1.1 200 OK\r\n\r\n", false, strBytes "SECRET BODY") := by
    rw [readHeaders_encode [strBytes "HTTP/1.1 200 OK\r"] (strBytes "SECRET BODY")
      (by decide)]
    decide
  exact httpGet_headers_only (strBytes "http://x/") ⟨false, true, []⟩ false
    (encodeHeaders [strBytes "HTTP/1.1 200 OK\r"] (strBytes "SECRET BODY"))
    (strBytes "x") (strBytes "80") [47] (strBytes "HTTP/1.1 200 OK\r\n\r\n") false
    (strBytes "SECRET BODY") (by decide) rfl hresp

/-- C9: `parseURL` indexes the third `/`-separated segment without any
length check, so URLs with fewer than three segments — e.g.
`"localhost:8080"` or `"example.com/path"` — make it panic (modelled as
`none`), and `HttpGet` panics on such URLs instead of returning a result
or an error. -/
theorem parseURL_short_url_panics :
    parseURL (strBytes "localhost:8080") = none ∧
    parseURL (strBytes "example.com/path") = none ∧
    ∀ (flags : HttpFlags) (dialFails writeFails : Bool) (response : List Nat),
      HttpGet (strBytes "localhost:8080") flags dialFails writeFails response =
        GRes.panicked [] [] := by
  refine ⟨by decide, by decide, ?_⟩
  intro flags dialFails writeFails response
  simp only [HttpGet]
  rw [show parseURL (strBytes "localhost:8080") = none from by decide]

/-- C8: for a header phase consisting of lines (none of which is the bare
terminator) followed by the empty-line terminator, `readHeaders` returns
the full accumulated header text including the terminator line, together
with the derived chunked-mode flag, and leaves the rest of the stream
unconsumed; with zero header lines the header block is just the terminator
line and the flag is false. -/
theorem readHeaders_full_text (lines : List (List Nat)) (rest : List Nat)
    (h : ∀ raw ∈ lines, 10 ∉ raw ∧ raw ≠ [13]) :
    readHeaders (encodeHeaders lines rest) =
      some ((lines.map (fun raw => raw ++ [10])).flatten ++ [13, 10],
        lines.any (fun raw => hasChunkedHeader (raw ++ [10])), rest) :=
  readHeaders_encode lines rest h

/-- Witness for C8: the edge case of a response whose very first line is
the terminator — valid, with a header block of only the terminator line
and a false chunked flag. -/
theorem readHeaders_full_text_witness :
    readHeaders (encodeHeaders [] (strBytes "BODY")) =
      some ([13, 10], false, strBytes "BODY") := by
  have h := readHeaders_full_text [] (strBytes "BODY") (by decide)
  simpa using h

/-- C10: the chunked flag is true exactly when some header line before the
terminator begins with the case-sensitive bytes
`"Transfer-Encoding: chunked"`; any other casing leaves the flag false, in
which case the identity framer is used, and the identity framer passes the
remaining stream bytes (including any raw chunk-size lines in them)
through to the sink verbatim. -/
theorem chunked_flag_iff_and_identity (lines : List (List Nat)) (rest : List Nat)
    (h : ∀ raw ∈ lines, 10 ∉ raw ∧ raw ≠ [13]) :
    (((readHeaders (encodeHeaders lines rest)).map (fun t => t.2.1) = some true) ↔
      ∃ raw ∈ lines,
        (strBytes "Transfer-Encoding: chunked").isPrefixOf (raw ++ [10]) = true) ∧
    readNonChunkedResponse rest = rest := by
  constructor
  · rw [readHeaders_encode lines rest h]
    simp [hasChunkedHeader, List.any_eq_true]
  · exact readNonChunkedResponse_eq_id rest

/-- Witness for C10: a lowercase `"transfer-encoding: chunked"` header
does not set the flag, and the body is passed through verbatim. -/
theorem chunked_flag_iff_and_identity_witness :
    ¬ ((readHeaders (encodeHeaders [strBytes "transfer-encoding: chunked\r"]
          (strBytes "5\r\nhello\r\n0\r\n"))).map (fun t => t.2.1) = some true) ∧
    readNonChunkedResponse (strBytes "5\r\nhello\r\n0\r\n") =
      strBytes "5\r\nhello\r\n0\r\n" := by
  have h := chunked_flag_iff_and_identity [strBytes "transfer-encoding: chunked\r"]
    (strBytes "5\r\nhello\r\n0\r\n") (by decide)
  exact ⟨fun hc => absurd (h.1.mp hc) (by decide), h.2⟩

end TinyHttp
